import Mathlib

/-!
Verification development for the `oxihtml` html5lib conformance-test harness.

The Rust sources are shallowly embedded:
* strings are modelled as `List Char`, byte buffers as `List Nat`;
* iterator loops become structural recursions (a `fuel` parameter stands in
  for loops whose progress measure is not a syntactic subterm; every call
  site picks a fuel that the loop can never exhaust, since each iteration
  consumes at least one element);
* the external parser seam (`Parser::parse_document` / `parse_fragment` in
  `lib.rs`) is embedded as written: the current implementation is a stub
  returning an empty document / fragment;
* filesystem reads are abstracted: a fixture file is `Option (List Char)`
  (`none` models an I/O error from `fs::read_to_string`), and the path
  stored in failure records is dropped (it is never inspected by any
  property below).
-/

namespace Oxihtml

/-- Characters with the Unicode `White_Space` property, the set used by
Rust's `char::is_whitespace` (hence by `str::trim` / `trim_end`). -/
def isRustWs (c : Char) : Bool :=
  c.toNat = 0x09 ∨ c.toNat = 0x0A ∨ c.toNat = 0x0B ∨ c.toNat = 0x0C ∨
  c.toNat = 0x0D ∨ c.toNat = 0x20 ∨ c.toNat = 0x85 ∨ c.toNat = 0xA0 ∨
  c.toNat = 0x1680 ∨ (0x2000 ≤ c.toNat ∧ c.toNat ≤ 0x200A) ∨
  c.toNat = 0x2028 ∨ c.toNat = 0x2029 ∨ c.toNat = 0x202F ∨
  c.toNat = 0x205F ∨ c.toNat = 0x3000

/-- `str::trim_end`. -/
def trimEndWs (l : List Char) : List Char :=
  (l.reverse.dropWhile isRustWs).reverse

/-- `str::trim`. -/
def rustTrim (l : List Char) : List Char :=
  trimEndWs (l.dropWhile isRustWs)

/-- `str::trim_matches('\n')`: strip every leading and trailing `'\n'`. -/
def trimNlChars (l : List Char) : List Char :=
  ((l.dropWhile (fun c => c = '\n')).reverse.dropWhile (fun c => c = '\n')).reverse

/-- `str::split('\n')`: split on every newline, keeping empty segments
(`"".split('\n')` yields one empty segment). -/
def splitNl : List Char → List (List Char)
  | [] => [[]]
  | c :: r =>
    if c = '\n' then [] :: splitNl r
    else
      match splitNl r with
      | [] => [[c]]
      | h :: t => (c :: h) :: t

/-- `Vec::join("\n")` on a list of lines. -/
def joinNl (ls : List (List Char)) : List Char :=
  List.intercalate ['\n'] ls

/-- `str::lines()`: split on `'\n'`, drop one trailing empty segment,
strip a trailing `'\r'` from each line. -/
def rustLines (s : List Char) : List (List Char) :=
  let p := splitNl s
  let p := if p.getLast? = some [] then p.dropLast else p
  p.map (fun l => if l.getLast? = some '\r' then l.dropLast else l)

/-- `serialize.rs::normalize_tree_text`: trim the whole block, then strip
trailing whitespace from every line. -/
def normalize_tree_text (text : List Char) : List Char :=
  let trimmed := rustTrim text
  joinNl ((rustLines trimmed).map trimEndWs)

/-! ## Section-Format decoder (`html5lib.rs`) -/

inductive ScriptDirective where
  | on
  | off
  | both
deriving DecidableEq, Repr

structure FragmentContextSpec where
  namespaceTag : Option (List Char)
  tag_name : List Char
deriving DecidableEq, Repr

structure TreeConstructionCase where
  data : List Char
  error_count : Nat
  fragment_context : Option FragmentContextSpec
  script_directive : ScriptDirective
  expected : List Char
deriving DecidableEq, Repr

/-- `html5lib.rs::is_header_line`. -/
def is_header_line (line : List Char) : Bool :=
  line = "#data".data ∨ line = "#errors".data ∨ line = "#new-errors".data ∨
  line = "#document-fragment".data ∨ line = "#script-on".data ∨
  line = "#script-off".data ∨ line = "#document".data

/-- `html5lib.rs::parse_fragment_context_line`. -/
def parse_fragment_context_line (line : List Char) : FragmentContextSpec :=
  let s := rustTrim line
  if "svg ".data.isPrefixOf s then
    { namespaceTag := some "svg".data, tag_name := s.drop 4 }
  else if "math ".data.isPrefixOf s then
    { namespaceTag := some "math".data, tag_name := s.drop 5 }
  else
    { namespaceTag := none, tag_name := s }

/-- Count the non-blank lines of an error section
(`if !err_line.trim().is_empty() { error_count += 1 }`). -/
def countNonBlank (ls : List (List Char)) : Nat :=
  (ls.filter (fun l => !(rustTrim l).isEmpty)).length

/-- The middle part of one scanning-loop iteration, entered right after
the `#errors` line was consumed: count the non-blank error lines (and
those of an optional `#new-errors` section), then read the optional
`#document-fragment` and `#script-on`/`#script-off` sections.  Returns
`(error_count, fragment_context, script_directive, remaining lines)`. -/
def scanMeta (r2 : List (List Char)) :
    Nat × Option FragmentContextSpec × ScriptDirective × List (List Char) :=
  -- count non-blank error lines until any header line
  let (errLines, r3) := r2.span (fun l => !is_header_line l)
  let ec1 := countNonBlank errLines
  let (error_count, r4) :=
    match r3 with
    | l :: r3' =>
      if l = "#new-errors".data then
        let (errLines2, r4) := r3'.span (fun l => !is_header_line l)
        (ec1 + countNonBlank errLines2, r4)
      else (ec1, r3)
    | [] => (ec1, [])
  -- optional "#document-fragment" section: one context line
  let (fragment_context, r5) :=
    match r4 with
    | l :: r4' =>
      if l = "#document-fragment".data then
        match r4' with
        | ctx :: r5 => (some (parse_fragment_context_line ctx), r5)
        | [] => (some (parse_fragment_context_line []), ([] : List (List Char)))
      else (none, r4)
    | [] => (none, [])
  -- optional "#script-on" / "#script-off"
  let (script_directive, r6) :=
    match r5 with
    | l :: r5' =>
      if l = "#script-on".data then (ScriptDirective.on, r5')
      else if l = "#script-off".data then (ScriptDirective.off, r5')
      else (ScriptDirective.both, r5)
    | [] => (ScriptDirective.both, [])
  (error_count, fragment_context, script_directive, r6)

/-- The body of one iteration of `parse_tree_construction_dat`'s scanning
loop, entered right after a `#data` line was consumed.  Returns the
emitted case (`none` when the case is malformed and silently skipped) and
the lines remaining for the outer loop.  The `while let` accumulation
loops become `List.span` with the loop's stopping predicate. -/
def scanCaseBody (rest : List (List Char)) :
    Option TreeConstructionCase × List (List Char) :=
  -- accumulate data lines until the "#errors" marker
  let (dataLines, r1) := rest.span (fun l => l ≠ "#errors".data)
  match r1 with
  | [] => (none, [])  -- `lines.next() != Some("#errors")` on an exhausted iterator
  | l :: r2 =>
    if l ≠ "#errors".data then (none, r2)
    else
      let data := if dataLines.isEmpty then [] else joinNl dataLines
      match scanMeta r2 with
      | (error_count, fragment_context, script_directive, r6) =>
        -- the next line must be "#document"
        match r6 with
        | [] => (none, [])
        | l :: r7 =>
          if l ≠ "#document".data then (none, r7)
          else
            let (expLines, r8) := r7.span (fun l => l ≠ "#data".data)
            let expected := trimNlChars (joinNl expLines)
            (some { data := data, error_count := error_count,
                    fragment_context := fragment_context,
                    script_directive := script_directive,
                    expected := expected }, r8)

/-- The outer scanning loop of `parse_tree_construction_dat`: skip lines
until a `#data` marker, then run `scanCaseBody` and continue from the
lines it leaves over.  `fuel` bounds the number of outer-loop iterations;
every recursive call is on a strict suffix of the current line list, so
the fuel `length + 1` chosen by `parse_tree_construction_dat` is never
exhausted. -/
def scanCases : Nat → List (List Char) → List TreeConstructionCase
  | 0, _ => []
  | _ + 1, [] => []
  | fuel + 1, line :: rest =>
    if line ≠ "#data".data then scanCases fuel rest
    else
      match scanCaseBody rest with
      | (some c, r) => c :: scanCases fuel r
      | (none, r) => scanCases fuel r

/-- `html5lib.rs::parse_tree_construction_dat`, on the file's content
(the `fs::read_to_string` step is abstracted away). -/
def parse_tree_construction_dat (content : List Char) : List TreeConstructionCase :=
  let lines := splitNl content
  scanCases (lines.length + 1) lines

/-! ## JSON-dialect decoder (`html5lib.rs`)

The parser state (`JsonParser { input, i }`) is represented by the list of
remaining input bytes; the byte offset `i` is recovered as
`input.length - remaining.length`, which every primitive preserves
(`bump` drops one element, `skip_ws` drops leading whitespace, ...).
Internal errors therefore carry the remaining bytes at the error point and
`parse_json` converts them to the offset the Rust error would report. -/

/-- A decoded JSON value.  Strings are kept as their UTF-8 byte content
(a Rust `String` is exactly that, validated on construction). -/
inductive Json where
  | null
  | bool (b : Bool)
  | number (n : Int)
  | string (bytes : List Nat)
  | array (items : List Json)
  | object (items : List (List Nat × Json))
deriving Repr

/-- Internal parse error: message plus the remaining input at the error
point (`JsonParser::err` captures the current `self.i`). -/
structure JErr where
  message : List Char
  remaining : List Nat
deriving DecidableEq, Repr

/-- The error type `parse_json` reports. -/
structure JsonParseError where
  message : List Char
  offset : Nat
deriving DecidableEq, Repr

/-- `JsonParser::skip_ws`: drop leading space / LF / CR / TAB bytes. -/
def skipWs : List Nat → List Nat
  | [] => []
  | b :: r => if b = 0x20 ∨ b = 0x0A ∨ b = 0x0D ∨ b = 0x09 then skipWs r else b :: r

/-- Hex digit value, as matched in `parse_hex_u16`. -/
def hexVal (b : Nat) : Option Nat :=
  if 0x30 ≤ b ∧ b ≤ 0x39 then some (b - 0x30)
  else if 0x61 ≤ b ∧ b ≤ 0x66 then some (b - 0x61 + 10)
  else if 0x41 ≤ b ∧ b ≤ 0x46 then some (b - 0x41 + 10)
  else none

/-- `char::encode_utf8`: UTF-8 bytes of a scalar value. -/
def encodeUtf8 (cp : Nat) : List Nat :=
  if cp < 0x80 then [cp]
  else if cp < 0x800 then [0xC0 + cp / 0x40, 0x80 + cp % 0x40]
  else if cp < 0x10000 then
    [0xE0 + cp / 0x1000, 0x80 + cp / 0x40 % 0x40, 0x80 + cp % 0x40]
  else
    [0xF0 + cp / 0x40000, 0x80 + cp / 0x1000 % 0x40, 0x80 + cp / 0x40 % 0x40,
     0x80 + cp % 0x40]

/-- `String::from_utf8` validity check (standard UTF-8 acceptance:
rejects overlong forms, surrogates and values above `0x10FFFF`). -/
def validUtf8 : List Nat → Bool
  | [] => true
  | b :: r =>
    if b < 0x80 then validUtf8 r
    else if 0xC2 ≤ b ∧ b ≤ 0xDF then
      match r with
      | c1 :: r' => 0x80 ≤ c1 ∧ c1 ≤ 0xBF ∧ validUtf8 r'
      | [] => false
    else if 0xE0 ≤ b ∧ b ≤ 0xEF then
      match r with
      | c1 :: c2 :: r' =>
        (if b = 0xE0 then 0xA0 ≤ c1 ∧ c1 ≤ 0xBF
         else if b = 0xED then 0x80 ≤ c1 ∧ c1 ≤ 0x9F
         else 0x80 ≤ c1 ∧ c1 ≤ 0xBF) ∧
        0x80 ≤ c2 ∧ c2 ≤ 0xBF ∧ validUtf8 r'
      | _ => false
    else if 0xF0 ≤ b ∧ b ≤ 0xF4 then
      match r with
      | c1 :: c2 :: c3 :: r' =>
        (if b = 0xF0 then 0x90 ≤ c1 ∧ c1 ≤ 0xBF
         else if b = 0xF4 then 0x80 ≤ c1 ∧ c1 ≤ 0x8F
         else 0x80 ≤ c1 ∧ c1 ≤ 0xBF) ∧
        0x80 ≤ c2 ∧ c2 ≤ 0xBF ∧ 0x80 ≤ c3 ∧ c3 ≤ 0xBF ∧ validUtf8 r'
      | _ => false
    else false

/-- The error `parse_hex_u16` reports when it cannot read four hex
digits from `r`: `"invalid hex digit"` with the offset right after the
first offending byte, or `"unexpected EOF in \\u"` at the end of input.
(The final arm is unreachable: it is only consulted when the four-digit
read fails.) -/
def hex4Err (r : List Nat) : JErr :=
  match r with
  | [] => ⟨"unexpected EOF in u-escape".data, []⟩
  | a :: r1 =>
    if (hexVal a).isNone then ⟨"invalid hex digit".data, r1⟩
    else match r1 with
    | [] => ⟨"unexpected EOF in u-escape".data, []⟩
    | b :: r2 =>
      if (hexVal b).isNone then ⟨"invalid hex digit".data, r2⟩
      else match r2 with
      | [] => ⟨"unexpected EOF in u-escape".data, []⟩
      | c :: r3 =>
        if (hexVal c).isNone then ⟨"invalid hex digit".data, r3⟩
        else match r3 with
        | [] => ⟨"unexpected EOF in u-escape".data, []⟩
        | d :: r4 =>
          if (hexVal d).isNone then ⟨"invalid hex digit".data, r4⟩
          else ⟨"unexpected EOF in u-escape".data, r4⟩

/-- The error reported when, after a high surrogate, the input does not
continue with `\\u` plus four hex digits:
`if self.bump() != Some(b'\\\\') || self.bump() != Some(b'u')` (offset
right after the bumped byte, or at EOF), then `parse_hex_u16`. -/
def lowSurrErr (r : List Nat) : JErr :=
  match r with
  | [] => ⟨"expected low surrogate".data, []⟩
  | s1 :: r1 =>
    if s1 ≠ 0x5C then ⟨"expected low surrogate".data, r1⟩
    else match r1 with
    | [] => ⟨"expected low surrogate".data, []⟩
    | s2 :: r2 =>
      if s2 ≠ 0x75 then ⟨"expected low surrogate".data, r2⟩
      else hex4Err r2

/-- One iteration of the string-content loop of
`JsonParser::parse_string` (the opening quote has already been consumed;
`acc` is the `out` byte vector).  `.inl` is a final result (the closing
quote, or an error); `.inr (acc, rem)` continues the loop.  The four
bumps of `parse_hex_u16` become an explicit four-element match; when that
match fails, `hex4Err` / `lowSurrErr` compute the error `parse_hex_u16`
(and the surrogate checks) would have produced, with the same offsets. -/
def stringStep (acc : List Nat) :
    List Nat → Except JErr (List Nat × List Nat) ⊕ (List Nat × List Nat)
  | [] => .inl (.error ⟨"unexpected EOF in string".data, []⟩)
  | b :: r =>
    if b = 0x22 then  -- closing quote: String::from_utf8 validation
      if validUtf8 acc then .inl (.ok (acc, r))
      else .inl (.error ⟨"invalid utf-8".data, r⟩)
    else if b = 0x5C then
      match r with
      | [] => .inl (.error ⟨"unexpected EOF in escape".data, []⟩)
      | e :: r2 =>
        if e = 0x22 then .inr (acc ++ [0x22], r2)
        else if e = 0x5C then .inr (acc ++ [0x5C], r2)
        else if e = 0x2F then .inr (acc ++ [0x2F], r2)
        else if e = 0x62 then .inr (acc ++ [0x08], r2)
        else if e = 0x66 then .inr (acc ++ [0x0C], r2)
        else if e = 0x6E then .inr (acc ++ [0x0A], r2)
        else if e = 0x72 then .inr (acc ++ [0x0D], r2)
        else if e = 0x74 then .inr (acc ++ [0x09], r2)
        else if e = 0x75 then
          match r2 with
          | j1 :: j2 :: j3 :: j4 :: r6 =>
            match hexVal j1, hexVal j2, hexVal j3, hexVal j4 with
            | some w1, some w2, some w3, some w4 =>
              let code := ((w1 * 16 + w2) * 16 + w3) * 16 + w4
              if 0xD800 ≤ code ∧ code ≤ 0xDBFF then
                -- surrogate pair: expect a second escape with a low surrogate
                match r6 with
                | s1 :: s2 :: k1 :: k2 :: k3 :: k4 :: r12 =>
                  if s1 = 0x5C ∧ s2 = 0x75 then
                    match hexVal k1, hexVal k2, hexVal k3, hexVal k4 with
                    | some x1, some x2, some x3, some x4 =>
                      let low := ((x1 * 16 + x2) * 16 + x3) * 16 + x4
                      if 0xDC00 ≤ low ∧ low ≤ 0xDFFF then
                        .inr (acc ++ encodeUtf8 (0x10000 + (code - 0xD800) * 0x400 + (low - 0xDC00)), r12)
                      else .inl (.error ⟨"invalid low surrogate".data, r12⟩)
                    | _, _, _, _ => .inl (.error (lowSurrErr r6))
                  else .inl (.error (lowSurrErr r6))
                | _ => .inl (.error (lowSurrErr r6))
              else if 0xDC00 ≤ code ∧ code ≤ 0xDFFF then
                -- char::from_u32 rejects lone low surrogates
                .inl (.error ⟨"invalid codepoint".data, r6⟩)
              else .inr (acc ++ encodeUtf8 code, r6)
            | _, _, _, _ => .inl (.error (hex4Err r2))
          | _ => .inl (.error (hex4Err r2))
        else .inl (.error ⟨"unknown escape".data, r2⟩)
    else if b < 0x20 then .inl (.error ⟨"control character in string".data, r⟩)
    else .inr (acc ++ [b], r)

/-- The string-content loop: iterate `stringStep`.  `fuel` bounds the
iteration count; every continuing step consumes at least one input byte,
so the fuel `length + 1` chosen by `parseString` is never exhausted. -/
def parseStringLoop : Nat → List Nat → List Nat → Except JErr (List Nat × List Nat)
  | 0, _, rem => .error ⟨"fuel".data, rem⟩
  | fuel + 1, acc, rem =>
    match stringStep acc rem with
    | .inl r => r
    | .inr (acc2, rem2) => parseStringLoop fuel acc2 rem2

def parseString : List Nat → Except JErr (List Nat × List Nat)
  | b :: r =>
    if b = 0x22 then parseStringLoop (r.length + 1) [] r
    else .error ⟨"expected quote".data, r⟩
  | [] => .error ⟨"expected quote".data, []⟩

/-- Byte list of an ASCII string (used only to write concrete test inputs
compactly; every concrete input below is ASCII). -/
def asciiBytes (s : String) : List Nat :=
  s.data.map (fun c => c.toNat)

/-- The eight two-character escapes and the byte each produces. -/
def escPairs : List (Nat × Nat) :=
  [(0x22, 0x22), (0x5C, 0x5C), (0x2F, 0x2F), (0x62, 0x08),
   (0x66, 0x0C), (0x6E, 0x0A), (0x72, 0x0D), (0x74, 0x09)]

/-- Does `rest` start with `\u` followed by four hex digits encoding a
low surrogate (`0xDC00..0xDFFF`)?  This is exactly the condition under
which the high-surrogate branch of `parse_string` succeeds. -/
def isLowSurrEscape (rest : List Nat) : Bool :=
  match rest with
  | s1 :: s2 :: j1 :: j2 :: j3 :: j4 :: _ =>
    s1 = 0x5C && s2 = 0x75 &&
      (match hexVal j1, hexVal j2, hexVal j3, hexVal j4 with
       | some w1, some w2, some w3, some w4 =>
         decide (0xDC00 ≤ ((w1 * 16 + w2) * 16 + w3) * 16 + w4 ∧
           ((w1 * 16 + w2) * 16 + w3) * 16 + w4 ≤ 0xDFFF)
       | _, _, _, _ => false)
  | _ => false

/-- `JsonParser::parse_null`: `input.get(i..i+4) == Some(b"null")`. -/
def parseNull (rem : List Nat) : Except JErr (Json × List Nat) :=
  if (asciiBytes "null").isPrefixOf rem then .ok (.null, rem.drop 4)
  else .error ⟨"expected null".data, rem⟩

/-- `JsonParser::parse_bool`. -/
def parseBool (rem : List Nat) : Except JErr (Json × List Nat) :=
  if (asciiBytes "true").isPrefixOf rem then .ok (.bool true, rem.drop 4)
  else if (asciiBytes "false").isPrefixOf rem then .ok (.bool false, rem.drop 5)
  else .error ⟨"expected boolean".data, rem⟩

def isDigit (b : Nat) : Bool := 0x30 ≤ b ∧ b ≤ 0x39

/-- `JsonParser::parse_number`: optional `-`, a run of digits, rejection of
`.`/`e`/`E`, then `i64` range checking (`s.parse::<i64>()`; the
`from_utf8` step cannot fail on sign/digit bytes). -/
def parseNumber (rem : List Nat) : Except JErr (Json × List Nat) :=
  let (neg, r1) :=
    match rem with
    | b :: r => if b = 0x2D then (true, r) else (false, rem)
    | [] => (false, rem)
  let digits := r1.takeWhile isDigit
  let r2 := r1.dropWhile isDigit
  if digits.isEmpty then .error ⟨"expected digits".data, r2⟩
  else if r2.head? = some 0x2E ∨ r2.head? = some 0x65 ∨ r2.head? = some 0x45 then
    .error ⟨"non-integer numbers not supported".data, r2⟩
  else
    let m : Nat := digits.foldl (fun a b => a * 10 + (b - 0x30)) 0
    let v : Int := if neg then -(m : Int) else (m : Int)
    if v < -(2 ^ 63) ∨ 2 ^ 63 - 1 < v then .error ⟨"invalid number".data, r2⟩
    else .ok (.number v, r2)

/-- One dispatch step of `JsonParser::parse_value`, parameterized by the
parser to use for nested values (`pv`), which `parseValueF` instantiates
with the next-lower fuel stage.  The array / object element loops consume
at least one byte per iteration, so their fuel `length + 1` is never
exhausted. -/
def parseValueStep (pv : List Nat → Except JErr (Json × List Nat))
    (rem : List Nat) : Except JErr (Json × List Nat) :=
  let r := skipWs rem
  match r with
  | [] => .error ⟨"unexpected EOF".data, []⟩
  | b :: _ =>
    if b = 0x6E then parseNull r
    else if b = 0x74 ∨ b = 0x66 then parseBool r
    else if b = 0x2D ∨ isDigit b then parseNumber r
    else if b = 0x22 then (parseString r).map (fun p => (.string p.1, p.2))
    else if b = 0x5B then parseArrayItems pv (r.length + 1) (skipWs (r.drop 1)) []
    else if b = 0x7B then parseObjectItems pv (r.length + 1) (skipWs (r.drop 1)) []
    else .error ⟨"unexpected character".data, r⟩
where
  /-- `JsonParser::parse_array` after the `[` has been consumed and
  whitespace skipped: empty-array check, then the element loop. -/
  parseArrayItems (pv : List Nat → Except JErr (Json × List Nat)) :
      Nat → List Nat → List Json → Except JErr (Json × List Nat)
    | 0, rem, _ => .error ⟨"fuel".data, rem⟩
    | f + 1, rem, items =>
      if items.isEmpty ∧ rem.head? = some 0x5D then .ok (.array [], rem.drop 1)
      else
        match pv rem with
        | .error e => .error e
        | .ok (v, r1) =>
          let r2 := skipWs r1
          match r2 with
          | [] => .error ⟨"unexpected EOF in array".data, []⟩
          | c :: r3 =>
            if c = 0x2C then parseArrayItems pv f (skipWs r3) (items ++ [v])
            else if c = 0x5D then .ok (.array (items ++ [v]), r3)
            else .error ⟨"expected comma or bracket".data, r3⟩
  /-- `JsonParser::parse_object` after the `{` has been consumed and
  whitespace skipped. -/
  parseObjectItems (pv : List Nat → Except JErr (Json × List Nat)) :
      Nat → List Nat → List (List Nat × Json) → Except JErr (Json × List Nat)
    | 0, rem, _ => .error ⟨"fuel".data, rem⟩
    | f + 1, rem, items =>
      if items.isEmpty ∧ rem.head? = some 0x7D then .ok (.object [], rem.drop 1)
      else
        match parseString (skipWs rem) with
        | .error e => .error e
        | .ok (key, r1) =>
          match skipWs r1 with
          | [] => .error ⟨"expected colon".data, []⟩
          | c :: r2 =>
            if c ≠ 0x3A then .error ⟨"expected colon".data, r2⟩
            else
              match pv r2 with
              | .error e => .error e
              | .ok (v, r3) =>
                let r4 := skipWs r3
                match r4 with
                | [] => .error ⟨"unexpected EOF in object".data, []⟩
                | d :: r5 =>
                  if d = 0x2C then parseObjectItems pv f (skipWs r5) (items ++ [(key, v)])
                  else if d = 0x7D then .ok (.object (items ++ [(key, v)]), r5)
                  else .error ⟨"expected comma or brace".data, r5⟩

/-- `JsonParser::parse_value`, with `fuel` bounding the nesting depth of
recursive `parse_value` calls.  Each nesting level consumes at least the
opening `[` / `{` byte, so `parse_json`'s fuel `input.length + 1` is never
exhausted. -/
def parseValueF : Nat → List Nat → Except JErr (Json × List Nat)
  | 0, rem => .error ⟨"fuel".data, rem⟩
  | fuel + 1, rem => parseValueStep (parseValueF fuel) rem

/-- `html5lib.rs::parse_json`. -/
def parse_json (input : List Nat) : Except JsonParseError Json :=
  let r0 := skipWs input
  match parseValueF (input.length + 1) r0 with
  | .error e => .error ⟨e.message, input.length - e.remaining.length⟩
  | .ok (v, r1) =>
    let r2 := skipWs r1
    if r2.isEmpty then .ok v
    else .error ⟨"trailing characters".data, input.length - r2.length⟩

/-! ## Document tree model (`dom.rs`) -/

inductive Namespace where
  | html
  | svg
  | mathMl
  | other (s : List Char)
deriving DecidableEq, Repr

structure QualName where
  ns : Namespace
  local_name : List Char
deriving DecidableEq, Repr

structure Attr where
  name : QualName
  value : List Char
deriving DecidableEq, Repr

structure DoctypeData where
  name : List Char
  public_id : List Char
  system_id : List Char
deriving DecidableEq, Repr

inductive NodeData where
  | document
  | documentFragment
  | element (name : QualName) (attrs : List Attr) (template_contents : Option Nat)
  | text (data : List Char)
  | comment (data : List Char)
  | doctype (dt : DoctypeData)
deriving DecidableEq, Repr

instance : Inhabited NodeData := ⟨.document⟩

abbrev NodeId := Nat

structure Node where
  data : NodeData
  parent : Option NodeId
  children : List NodeId
deriving DecidableEq, Repr, Inhabited

/-- The arena (`Vec<Node>`). -/
abbrev Arena := List Node

/-- In-place update of one arena slot (`arena[i] = ...` on an in-bounds
index; all claim hypotheses keep indices in bounds, as the Rust borrow of
`arena[i]` would otherwise panic). -/
def arenaModify (arena : Arena) (i : NodeId) (f : Node → Node) : Arena :=
  List.modify f i arena

/-- `Document::new_empty` (and `DocumentFragment::new_empty`): an arena
holding exactly the root node, plus that root's id. -/
def newEmptyArena (rootData : NodeData) : Arena × NodeId :=
  ([{ data := rootData, parent := none, children := [] }], 0)

/-- `Document::create_element` and friends: append a fresh parentless,
childless node; its id is the old arena length. -/
def createNode (arena : Arena) (data : NodeData) : Arena × NodeId :=
  (arena ++ [{ data := data, parent := none, children := [] }], arena.length)

/-- `dom.rs::append_child`. -/
def append_child (arena : Arena) (parent child : NodeId) : Arena :=
  let a1 := arenaModify arena child (fun n => { n with parent := some parent })
  arenaModify a1 parent (fun n => { n with children := n.children ++ [child] })

/-- `dom.rs::insert_before`. -/
def insert_before (arena : Arena) (parent new_child : NodeId)
    (reference : Option NodeId) : Arena :=
  match reference with
  | some r =>
    match (arena.getD parent default).children.indexOf? r with
    | some i =>
      let a1 := arenaModify arena new_child (fun n => { n with parent := some parent })
      arenaModify a1 parent (fun n => { n with children := n.children.insertIdx i new_child })
    | none => append_child arena parent new_child
  | none => append_child arena parent new_child

/-- `dom.rs::detach`. -/
def detach (arena : Arena) (node : NodeId) : Arena :=
  match (arena.getD node default).parent with
  | none => arena
  | some parent =>
    let a1 :=
      match (arena.getD parent default).children.indexOf? node with
      | some i => arenaModify arena parent (fun n => { n with children := n.children.eraseIdx i })
      | none => arena
    arenaModify a1 node (fun n => { n with parent := none })

/-- `dom.rs::set_attr`. -/
def set_attr (arena : Arena) (element : NodeId) (attr : Attr) : Arena :=
  arenaModify arena element (fun n =>
    match n.data with
    | .element name attrs tc =>
      if attrs.any (fun a => a.name = attr.name) then
        let attrs2 := attrs.map (fun a =>
          if a.name = attr.name then { a with value := attr.value } else a)
        { n with data := .element name attrs2 tc }
      else
        { n with data := .element name (attrs ++ [attr]) tc }
    | _ => n)

/-- `dom.rs::ensure_template_contents`. -/
def ensure_template_contents (arena : Arena) (template : NodeId) : Arena × NodeId :=
  match (arena.getD template default).data with
  | .element _ _ (some id) => (arena, id)
  | .element _ _ none =>
    let id := arena.length
    let a1 := arena ++ [{ data := .documentFragment, parent := none, children := [] }]
    (arenaModify a1 template (fun n =>
      match n.data with
      | .element name attrs _ => { n with data := .element name attrs (some id) }
      | _ => n), id)
  | _ => (arena, template)

/-! ## Canonical serializer (`serialize.rs`) -/

/-- `serialize.rs::namespace_prefix`. -/
def nsPrefixStr (ns : Namespace) : List Char :=
  match ns with
  | .html => []
  | .svg => "svg ".data
  | .mathMl => "math ".data
  | .other s =>
    if s = "xlink".data then "xlink ".data
    else if s = "xml".data then "xml ".data
    else if s = "xmlns".data then "xmlns ".data
    else []

/-- `serialize.rs::qualified_name`. -/
def qualified_name (name : QualName) : List Char :=
  nsPrefixStr name.ns ++ name.local_name

/-- `serialize.rs::is_template_html_ns`. -/
def is_template_html_ns (node : Node) : Bool :=
  match node.data with
  | .element name _ _ => name.ns = Namespace.html ∧ name.local_name = "template".data
  | _ => false

/-- `char` to UTF-16 code units (`str::encode_utf16`, per character). -/
def encodeUtf16Char (c : Char) : List Nat :=
  if c.toNat < 0x10000 then [c.toNat]
  else [0xD800 + (c.toNat - 0x10000) / 0x400, 0xDC00 + (c.toNat - 0x10000) % 0x400]

/-- `serialize.rs::utf16_sort_key`. -/
def utf16_sort_key (s : List Char) : List Nat :=
  (s.map encodeUtf16Char).flatten

/-- `serialize.rs::sort_attrs_for_test_output`.  Rust's `sort_by` is a
stable sort under the key comparison (`Vec<u16>` ordering is the
lexicographic order on `List Nat`); insertion sort is the same stable
sort. -/
def sort_attrs_for_test_output (attrs : List Attr) : List (List Nat × List Char × List Char) :=
  let out := attrs.map (fun attr =>
    let display := qualified_name attr.name
    (utf16_sort_key display, display, attr.value))
  out.insertionSort (fun a b => a.1 ≤ b.1)

/-- `serialize.rs::doctype_to_test_format`. -/
def doctype_to_test_format (dt : DoctypeData) : List Char :=
  if dt.public_id.isEmpty ∧ dt.system_id.isEmpty then
    "<!DOCTYPE ".data ++ dt.name ++ ">".data
  else
    "<!DOCTYPE ".data ++ dt.name ++ " \"".data ++ dt.public_id ++ "\" \"".data ++
      dt.system_id ++ "\">".data

/-- `" ".repeat(indent)`. -/
def spaces (n : Nat) : List Char := List.replicate n ' '

/-- One emitted attribute line:
`"| {indent+2 spaces}{display}=\"{value}\""`. -/
def attrLine (indent : Nat) (display value : List Char) : List Char :=
  "| ".data ++ spaces (indent + 2) ++ display ++ "=\"".data ++ value ++ "\"".data

/-- `serialize.rs::node_to_test_lines`, with `fuel` bounding the recursion
depth (the Rust recursion descends through child links; on the acyclic
arenas the tree operations build, depth is at most the arena size, which
is the fuel `to_test_format` supplies). -/
def node_to_test_lines (fuel : Nat) (arena : Arena) (node_id : NodeId) (indent : Nat) :
    List (List Char) :=
  match fuel with
  | 0 => []
  | fuel + 1 =>
    let node := arena.getD node_id default
    match node.data with
    | .document | .documentFragment =>
      (node.children.map (fun c => node_to_test_lines fuel arena c indent)).flatten
    | .doctype dt => ["| ".data ++ spaces indent ++ doctype_to_test_format dt]
    | .comment data => ["| ".data ++ spaces indent ++ "<!-- ".data ++ data ++ " -->".data]
    | .text data => ["| ".data ++ spaces indent ++ "\"".data ++ data ++ "\"".data]
    | .element name attrs template_contents =>
      let headLine := "| ".data ++ spaces indent ++ "<".data ++ qualified_name name ++ ">".data
      let attrLines := (sort_attrs_for_test_output attrs).map
        (fun t => attrLine indent t.2.1 t.2.2)
      let rest :=
        if is_template_html_ns node then
          match template_contents with
          | some contents =>
            ["| ".data ++ spaces (indent + 2) ++ "content".data] ++
              ((arena.getD contents default).children.map
                (fun c => node_to_test_lines fuel arena c (indent + 4))).flatten
          | none =>
            (node.children.map (fun c => node_to_test_lines fuel arena c (indent + 2))).flatten
        else
          (node.children.map (fun c => node_to_test_lines fuel arena c (indent + 2))).flatten
      headLine :: attrLines ++ rest

/-- `serialize.rs::to_test_format`. -/
def to_test_format (arena : Arena) (root : NodeId) : List Char :=
  joinNl (node_to_test_lines (arena.length + 1) arena root 0)

/-! ## External parser seam (`lib.rs`)

`Parser::parse_document` / `parse_fragment` are embedded as the repository
implements them today: stubs that ignore input and options and return an
empty document / fragment (the error list is not observed by the runner,
which passes `collect_errors: false`). -/

/-- `Parser::parse_document`: `Document::new_empty()`. -/
def parse_document (_scripting_enabled : Bool) (_input : List Char) : Arena × NodeId :=
  newEmptyArena .document

/-- `Parser::parse_fragment`: `DocumentFragment::new_empty()`. -/
def parse_fragment (_scripting_enabled : Bool) (_ctx : FragmentContextSpec)
    (_input : List Char) : Arena × NodeId :=
  newEmptyArena .documentFragment

/-! ## Execution engine (`bin/html5lib-runner.rs`)

A fixture file is its content (`none` models an `fs::read_to_string`
error); the failure record's path field is dropped (never inspected
here). Worker summaries are merged in chunk order below; the `mpsc`
channel actually delivers them in completion order, but every property
proved about the merge is order-independent. -/

structure Failure where
  case_index : Nat
  script : List Char
  input : List Char
  expected : List Char
  actual : List Char
deriving DecidableEq, Repr

structure Summary where
  total : Nat
  passed : Nat
  failed : Nat
  failures : List Failure
deriving DecidableEq, Repr

instance : Inhabited Summary := ⟨⟨0, 0, 0, []⟩⟩

/-- The scripting modes a case runs under (`script_modes` in
`run_tree_file`). -/
def scriptModes (d : ScriptDirective) : List (Bool × List Char) :=
  match d with
  | .on => [(true, "on".data)]
  | .off => [(false, "off".data)]
  | .both => [(true, "on".data), (false, "off".data)]

/-- One execution attempt of a case: parse with the stub parser,
serialize, and normalize both sides (`run_tree_file`'s loop body up to the
comparison). -/
def caseAttemptPasses (case : TreeConstructionCase) (scripting_enabled : Bool) : Bool :=
  let actual :=
    match case.fragment_context with
    | some ctx =>
      let parsed := parse_fragment scripting_enabled ctx case.data
      to_test_format parsed.1 parsed.2
    | none =>
      let parsed := parse_document scripting_enabled case.data
      to_test_format parsed.1 parsed.2
  normalize_tree_text case.expected = normalize_tree_text actual

/-- The normalized expected/actual pair recorded in a failure. -/
def attemptTexts (case : TreeConstructionCase) (scripting_enabled : Bool) :
    List Char × List Char :=
  let actual :=
    match case.fragment_context with
    | some ctx =>
      let parsed := parse_fragment scripting_enabled ctx case.data
      to_test_format parsed.1 parsed.2
    | none =>
      let parsed := parse_document scripting_enabled case.data
      to_test_format parsed.1 parsed.2
  (normalize_tree_text case.expected, normalize_tree_text actual)

/-- The inner `for (scripting_enabled, script_label) in script_modes` loop
of `run_tree_file`.  The returned flag is `true` when the Rust code hit
`return summary` (fail-fast after a failed attempt), which must also stop
the outer loop over cases. -/
def runModes (case : TreeConstructionCase) (i : Nat) (max_failures : Nat)
    (fail_fast : Bool) : List (Bool × List Char) → Summary → Summary × Bool
  | [], s => (s, false)
  | (scripting_enabled, script_label) :: ms, s =>
    let s := { s with total := s.total + 1 }
    if caseAttemptPasses case scripting_enabled then
      runModes case i max_failures fail_fast ms { s with passed := s.passed + 1 }
    else
      let s := { s with failed := s.failed + 1 }
      let s :=
        if s.failures.length < max_failures then
          let texts := attemptTexts case scripting_enabled
          { s with failures := s.failures ++
              [{ case_index := i, script := script_label, input := case.data,
                 expected := texts.1, actual := texts.2 }] }
        else s
      if fail_fast then (s, true)
      else runModes case i max_failures fail_fast ms s

/-- The outer `for (i, case) in cases.iter().enumerate()` loop of
`run_tree_file`. -/
def runCases (max_failures : Nat) (fail_fast : Bool) :
    List TreeConstructionCase → Nat → Summary → Summary
  | [], _, s => s
  | case :: rest, i, s =>
    let r := runModes case i max_failures fail_fast (scriptModes case.script_directive) s
    if r.2 then r.1
    else runCases max_failures fail_fast rest (i + 1) r.1

/-- `run_tree_file`, on the file's content (`none` = read/parse I/O
error, the `Err` arm of `parse_tree_construction_dat`). -/
def run_tree_file (file : Option (List Char)) (max_failures : Nat)
    (fail_fast : Bool) : Summary :=
  match file with
  | none =>
    { total := 1, passed := 0, failed := 1,
      failures := [{ case_index := 0, script := "n/a".data,
                     input := "(failed to read/parse .dat)".data,
                     expected := [], actual := [] }] }
  | some content =>
    runCases max_failures fail_fast (parse_tree_construction_dat content) 0 default

/-- The per-worker loop spawned in `main`: process the chunk's files
sequentially, stopping early on fail-fast after a failure or once the
accumulated failure records reach the global cap. -/
def workerLoop (max_failures : Nat) (fail_fast : Bool) :
    List (Option (List Char)) → Summary → Summary
  | [], s => s
  | f :: rest, s =>
    let r := run_tree_file f (max_failures - s.failures.length) fail_fast
    let s' : Summary :=
      { total := s.total + r.total, passed := s.passed + r.passed,
        failed := s.failed + r.failed, failures := s.failures ++ r.failures }
    if fail_fast ∧ 0 < s'.failed then s'
    else if max_failures ≤ s'.failures.length then s'
    else workerLoop max_failures fail_fast rest s'

/-- `slice::chunks(k)`: contiguous chunks of size `k` (last may be
shorter).  `fuel` bounds the iteration count; callers pass `length`
(enough whenever `1 ≤ k`). -/
def chunksF (k : Nat) : Nat → List α → List (List α)
  | 0, _ => []
  | _ + 1, [] => []
  | fuel + 1, l => l.take k :: chunksF k fuel (l.drop k)

/-- The `for s in rx` merge step in `main`: add the counts, and extend the
failure list only while it is still below the cap, truncating right back
to the cap. -/
def mergeStep (max_failures : Nat) (all s : Summary) : Summary :=
  { total := all.total + s.total, passed := all.passed + s.passed,
    failed := all.failed + s.failed,
    failures :=
      if all.failures.length < max_failures then
        (all.failures ++ s.failures).take max_failures
      else all.failures }

/-- The tree-construction portion of `main` after discovery: clamp the
worker count, partition the files into contiguous chunks, run one worker
per chunk, and merge the worker summaries. -/
def runMain (threads max_failures : Nat) (fail_fast : Bool)
    (files : List (Option (List Char))) : Summary :=
  if files.isEmpty then default
  else
    let t := min threads files.length
    let chunk_size := (files.length + t - 1) / t
    let chunkList := chunksF chunk_size files.length files
    let workerSummaries := chunkList.map (fun c => workerLoop max_failures fail_fast c default)
    workerSummaries.foldl (mergeStep max_failures) default

/-- Total number of failing executions across all files, with fail-fast
off and ignoring the cap. -/
def sumFailedAll (files : List (Option (List Char))) : Nat :=
  (files.map (fun f => (run_tree_file f 0 false).failed)).sum

/-! ## Shared helper lemmas -/

theorem head?_dropWhile {p : α → Bool} {l : List α} {a : α}
    (h : (l.dropWhile p).head? = some a) : p a = false := by
  induction l with
  | nil => simp at h
  | cons x xs ih =>
    by_cases hx : p x
    · simpa [List.dropWhile, hx] using ih (by simpa [List.dropWhile, hx] using h)
    · simp [List.dropWhile, hx] at h
      simpa [← h] using hx

theorem mem_dropWhile_of_mem {p : α → Bool} {l : List α} {a : α}
    (ha : a ∈ l) (hpa : p a = false) : a ∈ l.dropWhile p := by
  induction l with
  | nil => simp at ha
  | cons x xs ih =>
    by_cases hx : p x
    · rw [List.dropWhile_cons_of_pos hx]
      rcases List.mem_cons.mp ha with rfl | ha'
      · simp [hx] at hpa
      · exact ih ha'
    · simpa [List.dropWhile_cons_of_neg hx] using ha

theorem getLast?_dropWhile {p : α → Bool} {l : List α}
    (h : l.dropWhile p ≠ []) : (l.dropWhile p).getLast? = l.getLast? := by
  induction l with
  | nil => simp at h
  | cons x xs ih =>
    by_cases hx : p x
    · rw [List.dropWhile_cons_of_pos hx] at h ⊢
      rw [ih h, List.getLast?_cons]
      have : xs ≠ [] := by
        intro he
        exact h (by simp [he])
      cases xs with
      | nil => exact absurd rfl this
      | cons y ys => simp [List.getLast?_cons]
    · rw [List.dropWhile_cons_of_neg hx]

/-- The first and last characters of `trimNlChars l` are never `'\n'`. -/
theorem trimNlChars_head_last (l : List Char) :
    (trimNlChars l).head? ≠ some '\n' ∧ (trimNlChars l).getLast? ≠ some '\n' := by
  unfold trimNlChars
  set p : Char → Bool := fun c => c = '\n' with hp
  set inner := (l.dropWhile p).reverse.dropWhile p with hinner
  constructor
  · rw [List.head?_reverse]
    by_cases hne : inner = []
    · simp [hne]
    · rw [getLast?_dropWhile (by simpa [hinner] using hne), List.getLast?_reverse]
      intro hcon
      have := head?_dropWhile (p := p) (l := l) hcon
      simp [hp] at this
  · rw [List.getLast?_reverse]
    intro hcon
    have := head?_dropWhile (p := p) hcon
    simp [hp] at this

theorem mem_rustTrim_of_mem {l : List Char} {c : Char}
    (hc : c ∈ l) (hw : isRustWs c = false) : c ∈ rustTrim l := by
  unfold rustTrim trimEndWs
  have h1 : c ∈ l.dropWhile isRustWs := mem_dropWhile_of_mem hc hw
  have h2 : c ∈ (l.dropWhile isRustWs).reverse := by simpa using h1
  simpa using mem_dropWhile_of_mem h2 hw

/-- The last character of a non-empty `rustTrim` result is not whitespace. -/
theorem rustTrim_getLast_not_ws {l : List Char} {c : Char}
    (h : (rustTrim l).getLast? = some c) : isRustWs c = false := by
  unfold rustTrim trimEndWs at h
  rw [List.getLast?_reverse] at h
  exact head?_dropWhile h

/-! ## C6: merged failure list never exceeds the cap -/

theorem mergeStep_failures_le {cap : Nat} {all s : Summary}
    (h : all.failures.length ≤ cap) :
    ((mergeStep cap all s).failures.length ≤ cap) := by
  unfold mergeStep
  dsimp only
  split
  · exact le_trans (List.length_take_le _ _) (le_refl _)
  · exact h

theorem foldl_mergeStep_failures_le (cap : Nat) (ss : List Summary) (init : Summary)
    (h : init.failures.length ≤ cap) :
    ((ss.foldl (mergeStep cap) init).failures.length ≤ cap) := by
  induction ss generalizing init with
  | nil => exact h
  | cons s rest ih => exact ih _ (mergeStep_failures_le h)

/-- C6 (confirmed): for every worker count, failure cap and fail-fast
setting, the merged Summary's failure list never exceeds the cap. -/
theorem merged_failures_never_exceed_cap
    (threads max_failures : Nat) (fail_fast : Bool) (files : List (Option (List Char))) :
    (runMain threads max_failures fail_fast files).failures.length ≤ max_failures := by
  unfold runMain
  split
  · simp [default]
  · exact foldl_mergeStep_failures_le _ _ _ (by simp [default])

/-! ## C9: parse_json error offsets are bounded by the input length -/

/-- C9 (confirmed): `parse_json` always terminates with either a value or
a structured error whose offset is at most the input length (every buffer
access in the embedding is an option-returning, bounds-checked read). -/
theorem parse_json_total_offset_bounded (input : List Nat) :
    (∃ v, parse_json input = .ok v) ∨
      (∃ e, parse_json input = .error e ∧ e.offset ≤ input.length) := by
  rcases h : parseValueF (input.length + 1) (skipWs input) with e | ⟨v, r1⟩
  · exact .inr ⟨⟨e.message, input.length - e.remaining.length⟩,
      by simp [parse_json, h], Nat.sub_le _ _⟩
  · by_cases h2 : (skipWs r1).isEmpty
    · exact .inl ⟨v, by simp [parse_json, h, h2]⟩
    · exact .inr ⟨⟨"trailing characters".data, input.length - (skipWs r1).length⟩,
        by simp [parse_json, h, h2], Nat.sub_le _ _⟩

/-! ## C10: append_child frame conditions -/

theorem arenaModify_getElem? (arena : Arena) (i : NodeId) (f : Node → Node) (j : Nat) :
    (arenaModify arena i f)[j]? = if i = j then f <$> arena[j]? else arena[j]? := by
  unfold arenaModify
  rw [List.getElem?_modify]
  by_cases h : i = j <;> cases arena[j]? <;> simp [h]

/-- C10 (confirmed): `append_child arena parent child` keeps the arena
length, rewrites exactly the child entry (parent back-reference set) and
the parent entry (child id appended at the end of its children), leaves
every other entry untouched — and in particular a child that already had
a parent is *not* removed from its former parent's children list. -/
theorem append_child_frame (arena : Arena) (parent child : NodeId) (pnode cnode : Node)
    (hp : arena[parent]? = some pnode) (hc : arena[child]? = some cnode)
    (hne : parent ≠ child) :
    (append_child arena parent child).length = arena.length ∧
    (append_child arena parent child)[child]? = some { cnode with parent := some parent } ∧
    (append_child arena parent child)[parent]? =
      some { pnode with children := pnode.children ++ [child] } ∧
    (∀ i, i ≠ child → i ≠ parent → (append_child arena parent child)[i]? = arena[i]?) ∧
    (∀ q qnode, q ≠ child → q ≠ parent → arena[q]? = some qnode → child ∈ qnode.children →
      ∃ qnode2, (append_child arena parent child)[q]? = some qnode2 ∧ child ∈ qnode2.children) := by
  have hframe : ∀ i, i ≠ child → i ≠ parent →
      (append_child arena parent child)[i]? = arena[i]? := by
    intro i h1 h2
    unfold append_child
    rw [arenaModify_getElem?, if_neg (fun h => h2 h.symm), arenaModify_getElem?,
      if_neg (fun h => h1 h.symm)]
  refine ⟨?_, ?_, ?_, hframe, ?_⟩
  · unfold append_child arenaModify
    simp [List.length_modify]
  · unfold append_child
    rw [arenaModify_getElem?, if_neg hne, arenaModify_getElem?, if_pos rfl, hc]
    rfl
  · unfold append_child
    rw [arenaModify_getElem?, if_pos rfl, arenaModify_getElem?,
      if_neg (fun h => hne h.symm), hp]
    rfl
  · intro q qnode h1 h2 hq hmem
    exact ⟨qnode, by rw [hframe q h1 h2, hq], hmem⟩

/-- Witness for C10 at a concrete arena: node 0 (old parent of node 2),
node 1 (new parent), node 2 (child).  After `append_child arena 1 2` the
child's parent is 1, node 1's children are `[2]`, node 0 still lists 2. -/
theorem append_child_frame_witness :
    (append_child
        [{ data := .document, parent := none, children := [2] },
         { data := .element ⟨.html, "div".data⟩ [] none, parent := none, children := [] },
         { data := .text "t".data, parent := some 0, children := [] }] 1 2)[2]? =
      some { data := .text "t".data, parent := some 1, children := [] } ∧
    (append_child
        [{ data := .document, parent := none, children := [2] },
         { data := .element ⟨.html, "div".data⟩ [] none, parent := none, children := [] },
         { data := .text "t".data, parent := some 0, children := [] }] 1 2)[0]? =
      some { data := .document, parent := none, children := [2] } := by
  have h := append_child_frame
    [{ data := .document, parent := none, children := [2] },
     { data := .element ⟨.html, "div".data⟩ [] none, parent := none, children := [] },
     { data := .text "t".data, parent := some 0, children := [] }] 1 2
    { data := .element ⟨.html, "div".data⟩ [] none, parent := none, children := [] }
    { data := .text "t".data, parent := some 0, children := [] }
    (by decide) (by decide) (by decide)
  exact ⟨h.2.1, h.2.2.2.1 0 (by decide) (by decide)⟩

/-! ## C1: execution attempts per case -/

/-- With fail-fast disabled, the script-mode loop never stops early and
performs one attempt (one `total` increment) per mode; passes and
failures split accordingly. -/
theorem runModes_counts (case : TreeConstructionCase) (i cap : Nat)
    (ms : List (Bool × List Char)) (s : Summary) :
    (runModes case i cap false ms s).2 = false ∧
    (runModes case i cap false ms s).1.total = s.total + ms.length ∧
    (runModes case i cap false ms s).1.passed =
      s.passed + (ms.filter (fun m => caseAttemptPasses case m.1)).length ∧
    (runModes case i cap false ms s).1.failed =
      s.failed + (ms.filter (fun m => !caseAttemptPasses case m.1)).length ∧
    (runModes case i cap false ms s).1.failures.length + s.failed ≤
      s.failures.length + (runModes case i cap false ms s).1.failed := by
  induction ms generalizing s with
  | nil => simp [runModes]
  | cons m rest ih =>
    obtain ⟨se, lbl⟩ := m
    simp only [runModes]
    by_cases hpass : caseAttemptPasses case se
    · simp only [hpass, if_true]
      obtain ⟨h1, h2, h3, h4, h5⟩ := ih ⟨s.total + 1, s.passed + 1, s.failed, s.failures⟩
      simp only at h1 h2 h3 h4 h5
      refine ⟨h1, ?_, ?_, ?_, ?_⟩ <;> simp [hpass, h2, h3, h4] <;> omega
    · simp only [hpass, Bool.false_eq_true, if_false]
      by_cases hrec : s.failures.length < cap
      · simp only [if_pos hrec]
        obtain ⟨h1, h2, h3, h4, h5⟩ := ih ⟨s.total + 1, s.passed, s.failed + 1, s.failures ++ [⟨i, lbl, case.data, (attemptTexts case se).1, (attemptTexts case se).2⟩]⟩
        simp only at h1 h2 h3 h4 h5
        simp only [List.length_append, List.length_cons, List.length_nil] at h5
        refine ⟨h1, ?_, ?_, ?_, ?_⟩ <;> simp [hpass, h2, h3, h4] <;> omega
      · simp only [if_neg hrec]
        obtain ⟨h1, h2, h3, h4, h5⟩ := ih ⟨s.total + 1, s.passed, s.failed + 1, s.failures⟩
        simp only at h1 h2 h3 h4 h5
        refine ⟨h1, ?_, ?_, ?_, ?_⟩ <;> simp [hpass, h2, h3, h4] <;> omega

/-- With fail-fast disabled, the per-file case loop attempts every case
once per script mode. -/
theorem runCases_counts (cap : Nat) (cases : List TreeConstructionCase)
    (i : Nat) (s : Summary) :
    (runCases cap false cases i s).total =
      s.total + (cases.map (fun c => (scriptModes c.script_directive).length)).sum ∧
    (runCases cap false cases i s).passed =
      s.passed + (cases.map (fun c =>
        ((scriptModes c.script_directive).filter (fun m => caseAttemptPasses c m.1)).length)).sum ∧
    (runCases cap false cases i s).failed =
      s.failed + (cases.map (fun c =>
        ((scriptModes c.script_directive).filter (fun m => !caseAttemptPasses c m.1)).length)).sum ∧
    (runCases cap false cases i s).failures.length + s.failed ≤
      s.failures.length + (runCases cap false cases i s).failed := by
  induction cases generalizing i s with
  | nil => simp [runCases]
  | cons c rest ih =>
    obtain ⟨hm1, hm2, hm3, hm4, hm5⟩ := runModes_counts c i cap (scriptModes c.script_directive) s
    obtain ⟨hr1, hr2, hr3, hr4⟩ := ih (i + 1) (runModes c i cap false (scriptModes c.script_directive) s).1
    simp only [runCases, hm1, Bool.false_eq_true, if_false, List.map_cons, List.sum_cons]
    refine ⟨?_, ?_, ?_, ?_⟩ <;> omega

/-- C1 counterexample: a file with exactly one `script_directive = Both`
case whose (stub) parse fails.  Under fail-fast the case produces exactly
one execution attempt, not two: the failing first run short-circuits the
second. -/
theorem both_case_fail_fast_single_attempt :
    (parse_tree_construction_dat "#data\nx\n#errors\n#document\n| x".data).map
        (fun c => c.script_directive) = [.both] ∧
    (run_tree_file (some "#data\nx\n#errors\n#document\n| x".data) 20 true).total = 1 ∧
    (1 : Nat) ≠ 2 := by
  refine ⟨by decide, by decide, by decide⟩

/-- C1 amended: with fail-fast disabled, every case is attempted exactly
once per script mode — `Both` cases exactly twice, once with scripting on
and once off.  (Under fail-fast, a failing attempt returns from the file
immediately, which can cut a `Both` case short after its first run.) -/
theorem both_case_two_attempts_without_fail_fast
    (content : List Char) (cap : Nat) :
    (run_tree_file (some content) cap false).total =
      ((parse_tree_construction_dat content).map
        (fun c => (scriptModes c.script_directive).length)).sum ∧
    scriptModes .both = [(true, "on".data), (false, "off".data)] ∧
    (scriptModes .both).length = 2 := by
  refine ⟨?_, rfl, rfl⟩
  have h := runCases_counts cap (parse_tree_construction_dat content) 0 default
  simpa [run_tree_file, default] using h.1

/-! ## C2: worker-count invariance of the merged counts -/

theorem length_filter_add_length_filter_not (p : α → Bool) (l : List α) :
    (l.filter p).length + (l.filter (fun x => !p x)).length = l.length := by
  induction l with
  | nil => simp
  | cons x xs ih => by_cases hx : p x <;> simp [hx] <;> omega

theorem sum_map_add_dist (f g : α → Nat) (l : List α) :
    (l.map (fun x => f x + g x)).sum = (l.map f).sum + (l.map g).sum := by
  induction l with
  | nil => simp
  | cons x xs ih => simp [ih]; omega

theorem sum_map_flatten (g : α → Nat) (L : List (List α)) :
    (L.flatten.map g).sum = (L.map (fun c => (c.map g).sum)).sum := by
  induction L with
  | nil => simp
  | cons c L ih =>
    simp only [List.flatten_cons, List.map_append, List.sum_append, ih,
      List.map_cons, List.sum_cons]

/-- With fail-fast off, the counts of `run_tree_file` do not depend on
the failure cap (the cap only gates recording of failure detail); the
failure list never exceeds the failed count; and `total = passed +
failed`. -/
theorem run_tree_file_counts (f : Option (List Char)) (cap : Nat) :
    (run_tree_file f cap false).total = (run_tree_file f 0 false).total ∧
    (run_tree_file f cap false).passed = (run_tree_file f 0 false).passed ∧
    (run_tree_file f cap false).failed = (run_tree_file f 0 false).failed ∧
    (run_tree_file f cap false).failures.length ≤ (run_tree_file f cap false).failed ∧
    (run_tree_file f cap false).total =
      (run_tree_file f cap false).passed + (run_tree_file f cap false).failed := by
  cases f with
  | none => simp [run_tree_file]
  | some content =>
    obtain ⟨hc1, hc2, hc3, hc4⟩ := runCases_counts cap (parse_tree_construction_dat content) 0 default
    obtain ⟨h01, h02, h03, _⟩ := runCases_counts 0 (parse_tree_construction_dat content) 0 default
    unfold run_tree_file
    dsimp only
    have hdt : (default : Summary).total = 0 := rfl
    have hdp : (default : Summary).passed = 0 := rfl
    have hdf : (default : Summary).failed = 0 := rfl
    have hdl : (default : Summary).failures.length = 0 := rfl
    refine ⟨by rw [hc1, h01], by rw [hc2, h02], by rw [hc3, h03], by omega, ?_⟩
    · rw [hc1, hc2, hc3]
      have hpoint : ∀ c ∈ parse_tree_construction_dat content,
          (scriptModes c.script_directive).length =
          ((scriptModes c.script_directive).filter (fun m => caseAttemptPasses c m.1)).length +
          ((scriptModes c.script_directive).filter (fun m => !caseAttemptPasses c m.1)).length :=
        fun c _ => (length_filter_add_length_filter_not _ _).symm
      have hmaps := List.map_congr_left hpoint
      have hsum : ((parse_tree_construction_dat content).map
            (fun c => (scriptModes c.script_directive).length)).sum =
          ((parse_tree_construction_dat content).map (fun c =>
            ((scriptModes c.script_directive).filter (fun m => caseAttemptPasses c m.1)).length)).sum +
          ((parse_tree_construction_dat content).map (fun c =>
            ((scriptModes c.script_directive).filter (fun m => !caseAttemptPasses c m.1)).length)).sum := by
        rw [hmaps, sum_map_add_dist]
      omega

/-- With fail-fast off, a worker that never reaches the failure cap
processes its whole chunk, and its counts are the per-file sums. -/
theorem workerLoop_counts (cap : Nat) :
    ∀ (fs : List (Option (List Char))) (s : Summary),
      s.failures.length + sumFailedAll fs < cap →
      (workerLoop cap false fs s).total =
        s.total + (fs.map (fun f => (run_tree_file f 0 false).total)).sum ∧
      (workerLoop cap false fs s).passed =
        s.passed + (fs.map (fun f => (run_tree_file f 0 false).passed)).sum ∧
      (workerLoop cap false fs s).failed = s.failed + sumFailedAll fs ∧
      (workerLoop cap false fs s).failures.length ≤ s.failures.length + sumFailedAll fs := by
  intro fs
  induction fs with
  | nil =>
    intro s h
    simp [workerLoop, sumFailedAll]
  | cons f rest ih =>
    intro s hlt
    obtain ⟨hr1, hr2, hr3, hr4, _⟩ := run_tree_file_counts f (cap - s.failures.length)
    have hsumcons : sumFailedAll (f :: rest) =
        (run_tree_file f 0 false).failed + sumFailedAll rest := by
      simp [sumFailedAll]
    have hlen : (run_tree_file f (cap - s.failures.length) false).failures.length ≤
        (run_tree_file f 0 false).failed := by omega
    obtain ⟨i1, i2, i3, i4⟩ := ih
      ⟨s.total + (run_tree_file f (cap - s.failures.length) false).total,
       s.passed + (run_tree_file f (cap - s.failures.length) false).passed,
       s.failed + (run_tree_file f (cap - s.failures.length) false).failed,
       s.failures ++ (run_tree_file f (cap - s.failures.length) false).failures⟩
      (by simp only [List.length_append]; omega)
    dsimp only at i1 i2 i3 i4
    simp only [workerLoop, Bool.false_eq_true, false_and, if_false,
      List.map_cons, List.sum_cons]
    rw [if_neg (by simp only [List.length_append]; omega)]
    simp only [List.length_append] at i4
    refine ⟨by omega, by omega, by omega, by omega⟩

/-- Every summary the pipeline builds satisfies `total = passed +
failed`; `workerLoop` preserves it. -/
theorem workerLoop_ok (cap : Nat) :
    ∀ (fs : List (Option (List Char))) (s : Summary),
      s.total = s.passed + s.failed →
      (workerLoop cap false fs s).total =
        (workerLoop cap false fs s).passed + (workerLoop cap false fs s).failed := by
  intro fs
  induction fs with
  | nil => intro s h; simpa [workerLoop] using h
  | cons f rest ih =>
    intro s hs
    obtain ⟨_, _, _, _, hok⟩ := run_tree_file_counts f (cap - s.failures.length)
    have hih := ih
      ⟨s.total + (run_tree_file f (cap - s.failures.length) false).total,
       s.passed + (run_tree_file f (cap - s.failures.length) false).passed,
       s.failed + (run_tree_file f (cap - s.failures.length) false).failed,
       s.failures ++ (run_tree_file f (cap - s.failures.length) false).failures⟩
      (by dsimp only; omega)
    simp only [workerLoop, Bool.false_eq_true, false_and, if_false]
    by_cases hstop : cap ≤
        (s.failures ++ (run_tree_file f (cap - s.failures.length) false).failures).length
    · rw [if_pos hstop]
      dsimp only
      omega
    · rw [if_neg hstop]
      exact hih

theorem mergeStep_total (cap : Nat) (a b : Summary) :
    (mergeStep cap a b).total = a.total + b.total := rfl

theorem mergeStep_passed (cap : Nat) (a b : Summary) :
    (mergeStep cap a b).passed = a.passed + b.passed := rfl

theorem mergeStep_failed (cap : Nat) (a b : Summary) :
    (mergeStep cap a b).failed = a.failed + b.failed := rfl

/-- The merge loop adds all worker counts unconditionally. -/
theorem foldl_mergeStep_counts (cap : Nat) (ss : List Summary) :
    ∀ init : Summary,
      ((ss.foldl (mergeStep cap) init).total = init.total + (ss.map (fun s => s.total)).sum ∧
       (ss.foldl (mergeStep cap) init).passed = init.passed + (ss.map (fun s => s.passed)).sum ∧
       (ss.foldl (mergeStep cap) init).failed = init.failed + (ss.map (fun s => s.failed)).sum) := by
  induction ss with
  | nil => intro init; simp
  | cons x ss ih =>
    intro init
    obtain ⟨j1, j2, j3⟩ := ih (mergeStep cap init x)
    simp only [List.foldl_cons, List.map_cons, List.sum_cons, j1, j2, j3,
      mergeStep_total, mergeStep_passed, mergeStep_failed]
    refine ⟨by omega, by omega, by omega⟩

/-- `slice::chunks` partitions the list: flattening the chunks gives the
original list back (when `1 ≤ k` and enough fuel). -/
theorem chunksF_flatten (k : Nat) (hk : 1 ≤ k) :
    ∀ (fuel : Nat) (l : List α), l.length ≤ fuel → (chunksF k fuel l).flatten = l := by
  intro fuel
  induction fuel with
  | zero =>
    intro l h
    rw [List.eq_nil_of_length_eq_zero (Nat.le_zero.mp h)]
    simp [chunksF]
  | succ fuel ih =>
    intro l hl
    match l with
    | [] => simp [chunksF]
    | x :: xs =>
      have hdrop : ((x :: xs).drop k).length ≤ fuel := by
        simp only [List.length_drop, List.length_cons] at *
        omega
      simp only [chunksF, List.flatten_cons, ih _ hdrop, List.take_append_drop]

/-- With fail-fast off, whenever the total number of failing executions
stays strictly below the cap, the merged counts equal the per-file sums —
independently of the worker count. -/
theorem runMain_counts (threads cap : Nat) (files : List (Option (List Char)))
    (ht : 1 ≤ threads) (hcap : sumFailedAll files < cap) :
    (runMain threads cap false files).total =
      (files.map (fun f => (run_tree_file f 0 false).total)).sum ∧
    (runMain threads cap false files).passed =
      (files.map (fun f => (run_tree_file f 0 false).passed)).sum ∧
    (runMain threads cap false files).failed = sumFailedAll files := by
  by_cases hemp : files.isEmpty
  · have : files = [] := List.isEmpty_iff.mp hemp
    subst this
    simp [runMain, default, sumFailedAll]
  · have hn : 1 ≤ files.length := by
      cases files with
      | nil => simp at hemp
      | cons a l => simp
    have ht2 : 1 ≤ min threads files.length := le_min ht hn
    have hk : 1 ≤ (files.length + min threads files.length - 1) / min threads files.length := by
      rw [Nat.le_div_iff_mul_le ht2]
      omega
    have hflat := chunksF_flatten
      ((files.length + min threads files.length - 1) / min threads files.length) hk
      files.length files (le_refl _)
    have hsumchunks : sumFailedAll files =
        ((chunksF ((files.length + min threads files.length - 1) / min threads files.length)
          files.length files).map sumFailedAll).sum := by
      conv_lhs => rw [← hflat]
      unfold sumFailedAll
      rw [sum_map_flatten]
    have hchunkle : ∀ c ∈ chunksF
        ((files.length + min threads files.length - 1) / min threads files.length)
        files.length files, sumFailedAll c ≤ sumFailedAll files := by
      intro c hc
      rw [hsumchunks]
      exact List.single_le_sum (fun x _ => Nat.zero_le x) _ (List.mem_map_of_mem sumFailedAll hc)
    have hworker : ∀ c ∈ chunksF
        ((files.length + min threads files.length - 1) / min threads files.length)
        files.length files,
        (workerLoop cap false c default).total =
          (c.map (fun f => (run_tree_file f 0 false).total)).sum ∧
        (workerLoop cap false c default).passed =
          (c.map (fun f => (run_tree_file f 0 false).passed)).sum ∧
        (workerLoop cap false c default).failed = sumFailedAll c := by
      intro c hc
      have hpre : (default : Summary).failures.length + sumFailedAll c < cap := by
        have := hchunkle c hc
        have hd : (default : Summary).failures.length = 0 := rfl
        omega
      obtain ⟨w1, w2, w3, _⟩ := workerLoop_counts cap c default hpre
      have hd0 : (default : Summary).total = 0 := rfl
      have hd1 : (default : Summary).passed = 0 := rfl
      have hd2 : (default : Summary).failed = 0 := rfl
      refine ⟨by omega, by omega, by omega⟩
    obtain ⟨m1, m2, m3⟩ := foldl_mergeStep_counts cap
      ((chunksF ((files.length + min threads files.length - 1) / min threads files.length)
        files.length files).map (fun c => workerLoop cap false c default)) default
    unfold runMain
    rw [if_neg (by simp [hemp])]
    dsimp only
    rw [m1, m2, m3]
    have hd0 : (default : Summary).total = 0 := rfl
    have hd1 : (default : Summary).passed = 0 := rfl
    have hd2 : (default : Summary).failed = 0 := rfl
    rw [hd0, hd1, hd2]
    simp only [List.map_map, Function.comp_def]
    constructor
    · rw [List.map_congr_left (fun c hc => (hworker c hc).1)]
      conv_rhs => rw [← hflat]
      rw [sum_map_flatten]
      simp
    constructor
    · rw [List.map_congr_left (fun c hc => (hworker c hc).2.1)]
      conv_rhs => rw [← hflat]
      rw [sum_map_flatten]
      simp
    · rw [List.map_congr_left (fun c hc => (hworker c hc).2.2)]
      rw [hsumchunks]
      simp

/-- `total = passed + failed` holds on the merged summary for every
worker count and cap (fail-fast off). -/
theorem runMain_ok (threads cap : Nat) (files : List (Option (List Char))) :
    (runMain threads cap false files).total =
      (runMain threads cap false files).passed + (runMain threads cap false files).failed := by
  by_cases hemp : files.isEmpty
  · have : files = [] := List.isEmpty_iff.mp hemp
    subst this
    simp [runMain, default]
  · unfold runMain
    rw [if_neg (by simp [hemp])]
    dsimp only
    obtain ⟨m1, m2, m3⟩ := foldl_mergeStep_counts cap
      ((chunksF ((files.length + min threads files.length - 1) / min threads files.length)
        files.length files).map (fun c => workerLoop cap false c default)) default
    rw [m1, m2, m3]
    have hall : ∀ s ∈ (chunksF
        ((files.length + min threads files.length - 1) / min threads files.length)
        files.length files).map (fun c => workerLoop cap false c default),
        s.total = s.passed + s.failed := by
      intro s hs
      obtain ⟨c, _, rfl⟩ := List.mem_map.mp hs
      exact workerLoop_ok cap c default rfl
    have hd0 : (default : Summary).total = 0 := rfl
    have hd1 : (default : Summary).passed = 0 := rfl
    have hd2 : (default : Summary).failed = 0 := rfl
    rw [hd0, hd1, hd2]
    have hsplit : ∀ (L : List Summary), (∀ s ∈ L, s.total = s.passed + s.failed) →
        (L.map (fun s => s.total)).sum =
          (L.map (fun s => s.passed)).sum + (L.map (fun s => s.failed)).sum := by
      intro L hL
      induction L with
      | nil => simp
      | cons x l ihl =>
        simp only [List.map_cons, List.sum_cons]
        have hx := hL x (by simp)
        have hrest := ihl (fun s hs => hL s (by simp [hs]))
        omega
    have := hsplit _ hall
    omega

/-- C2 counterexample: two identical one-case files whose (stub) parses
fail, cap 1, fail-fast off.  With one worker the cap break skips the
second file entirely (`total = 2`); with two workers (the file count)
both files run (`total = 4`): worker count changes `total`. -/
theorem worker_count_changes_totals :
    (runMain 1 1 false [some "#data\nx\n#errors\n#document\n| x".data,
        some "#data\nx\n#errors\n#document\n| x".data]).total = 2 ∧
    (runMain 2 1 false [some "#data\nx\n#errors\n#document\n| x".data,
        some "#data\nx\n#errors\n#document\n| x".data]).total = 4 := by
  refine ⟨by decide, by decide⟩

/-- C2 amended: with fail-fast off, the merged Summary always satisfies
`total = passed + failed`; and whenever the total number of failing
executions across all files stays strictly below the failure cap (so no
worker hits its early-stop), any two worker counts yield identical
`total`, `passed` and `failed`.  (When the cap is reached, a worker stops
mid-chunk and the counts can depend on the partitioning, as the
counterexample shows.) -/
theorem counts_invariant_under_cap :
    (∀ (threads cap : Nat) (files : List (Option (List Char))),
      (runMain threads cap false files).total =
        (runMain threads cap false files).passed +
        (runMain threads cap false files).failed) ∧
    (∀ (t1 t2 cap : Nat) (files : List (Option (List Char))),
      1 ≤ t1 → 1 ≤ t2 → sumFailedAll files < cap →
      (runMain t1 cap false files).total = (runMain t2 cap false files).total ∧
      (runMain t1 cap false files).passed = (runMain t2 cap false files).passed ∧
      (runMain t1 cap false files).failed = (runMain t2 cap false files).failed) := by
  refine ⟨fun threads cap files => runMain_ok threads cap files, ?_⟩
  intro t1 t2 cap files h1 h2 hcap
  obtain ⟨a1, a2, a3⟩ := runMain_counts t1 cap files h1 hcap
  obtain ⟨b1, b2, b3⟩ := runMain_counts t2 cap files h2 hcap
  exact ⟨by rw [a1, b1], by rw [a2, b2], by rw [a3, b3]⟩

/-- Witness for the amended C2 theorem: one failing file, cap 3 (above
the two failing executions), worker counts 1 and 2. -/
theorem counts_invariant_under_cap_witness :
    (runMain 1 3 false [some "#data\nx\n#errors\n#document\n| x".data]).total =
      (runMain 2 3 false [some "#data\nx\n#errors\n#document\n| x".data]).total ∧
    (runMain 1 3 false [some "#data\nx\n#errors\n#document\n| x".data]).total =
      (runMain 1 3 false [some "#data\nx\n#errors\n#document\n| x".data]).passed +
      (runMain 1 3 false [some "#data\nx\n#errors\n#document\n| x".data]).failed :=
  ⟨(counts_invariant_under_cap.2 1 2 3
      [some "#data\nx\n#errors\n#document\n| x".data]
      (by decide) (by decide) (by decide)).1,
   counts_invariant_under_cap.1 1 3 [some "#data\nx\n#errors\n#document\n| x".data]⟩

/-! ## C4: which lines stop which accumulation -/

/-- C4 counterexample: a `#document` marker line inside the data section
does *not* terminate the data accumulation — it is accumulated into
`data` (the data loop stops only at `#errors`). -/
theorem marker_inside_data_accumulated :
    (parse_tree_construction_dat "#data\n#document\n#errors\n#document".data).map
        (fun c => c.data) = ["#document".data] ∧
    is_header_line "#document".data = true := by
  refine ⟨by decide, by decide⟩

/-- C4 amended: the recognized markers are the fixed closed seven-element
set, and the *error-line* accumulation (the `span` on `!is_header_line`
used for `#errors` / `#new-errors` sections) stops exactly at a marker:
no accumulated error line is a marker, and the first unconsumed line, if
any, is one.  The data accumulation, by contrast, stops only at
`#errors` (a `#document` line passes straight through, last conjunct). -/
theorem error_accumulation_stops_at_markers :
    (∀ l, is_header_line l = true ↔
      (l = "#data".data ∨ l = "#errors".data ∨ l = "#new-errors".data ∨
       l = "#document-fragment".data ∨ l = "#script-on".data ∨
       l = "#script-off".data ∨ l = "#document".data)) ∧
    (∀ (ls : List (List Char)) (l : List Char),
      (ls.span (fun l => !is_header_line l)).2.head? = some l → is_header_line l = true) ∧
    (∀ (ls : List (List Char)) (l : List Char),
      l ∈ (ls.span (fun l => !is_header_line l)).1 → is_header_line l = false) ∧
    (["#document".data].span (fun l => l ≠ "#errors".data)).1 = ["#document".data] := by
  refine ⟨?_, ?_, ?_, by decide⟩
  · intro l
    simp [is_header_line]
  · intro ls l h
    rw [List.span_eq_take_drop] at h
    have := head?_dropWhile h
    simpa using this
  · intro ls l h
    rw [List.span_eq_take_drop] at h
    have := List.mem_takeWhile_imp h
    simpa using this

/-- Witness for the hypothesis-bearing parts of the amended C4 theorem at
concrete inputs. -/
theorem error_accumulation_stops_at_markers_witness :
    is_header_line "#document".data = true ∧ is_header_line "1:1 err".data = false :=
  ⟨error_accumulation_stops_at_markers.2.1 ["1:1 err".data, "#document".data]
      "#document".data (by decide),
   error_accumulation_stops_at_markers.2.2.1 ["1:1 err".data, "#document".data]
      "1:1 err".data (by decide)⟩

/-! ## C5: fragment-context tag names -/

/-- C5 counterexample: a blank (all-whitespace) context line after
`#document-fragment` produces an emitted case whose `fragment_context`
is present but carries an *empty* tag name. -/
theorem fragment_context_empty_tag :
    (parse_tree_construction_dat
        "#data\nx\n#errors\n#document-fragment\n \n#document\n| x".data).map
        (fun c => c.fragment_context) =
      [some { namespaceTag := none, tag_name := [] }] := by
  decide

/-- C5 amended: whenever the context line contains any non-whitespace
character, the parsed fragment context's tag name is non-empty (the tag
is the trimmed line, minus a `svg ` / `math ` namespace marker; trimming
guarantees the remainder cannot be empty). -/
theorem fragment_context_tag_nonempty_of_nonblank (line : List Char)
    (h : ∃ c, c ∈ line ∧ isRustWs c = false) :
    (parse_fragment_context_line line).tag_name ≠ [] := by
  obtain ⟨c, hc, hw⟩ := h
  have hmem : c ∈ rustTrim line := mem_rustTrim_of_mem hc hw
  have hne : rustTrim line ≠ [] := by
    intro hnil
    rw [hnil] at hmem
    simp at hmem
  have hlast : ∀ d, (rustTrim line).getLast? = some d → isRustWs d = false :=
    fun d hd => rustTrim_getLast_not_ws hd
  unfold parse_fragment_context_line
  dsimp only
  split
  · next hpre =>
    intro hdrop
    obtain ⟨t, ht⟩ := List.isPrefixOf_iff_prefix.mp hpre
    have htail : t = [] := by
      rw [← ht] at hdrop
      exact (show ("svg ".data ++ t).drop 4 = t from rfl) ▸ hdrop
    have heq : rustTrim line = "svg ".data := by rw [← ht, htail, List.append_nil]
    exact absurd (hlast ' ' (by rw [heq]; decide)) (by decide)
  · split
    · next hpre =>
      intro hdrop
      obtain ⟨t, ht⟩ := List.isPrefixOf_iff_prefix.mp hpre
      have htail : t = [] := by
        rw [← ht] at hdrop
        exact (show ("math ".data ++ t).drop 5 = t from rfl) ▸ hdrop
      have heq : rustTrim line = "math ".data := by rw [← ht, htail, List.append_nil]
      exact absurd (hlast ' ' (by rw [heq]; decide)) (by decide)
    · exact hne

/-- Witness for the amended C5 theorem at a concrete non-blank line. -/
theorem fragment_context_tag_nonempty_witness :
    (parse_fragment_context_line "svg x".data).tag_name ≠ [] :=
  fragment_context_tag_nonempty_of_nonblank "svg x".data ⟨'x', by decide, by decide⟩

/-! ## C3: the expected field at decode time -/

/-- Every case emitted by the scanner has `expected` of the form
`trimNlChars (joinNl ...)`, so it neither starts nor ends with a newline
character. -/
theorem scanCaseBody_expected_no_nl (rest : List (List Char))
    (c : TreeConstructionCase) (r : List (List Char))
    (h : scanCaseBody rest = (some c, r)) :
    c.expected.head? ≠ some '\n' ∧ c.expected.getLast? ≠ some '\n' := by
  unfold scanCaseBody at h
  repeat' first
    | split at h
    | dsimp only at h
  all_goals
    first
    | (have hinj := Option.some.inj (congrArg Prod.fst h)
       subst hinj
       exact trimNlChars_head_last _)
    | exact absurd h (by simp)

theorem scanCases_expected_no_nl :
    ∀ (fuel : Nat) (ls : List (List Char)) (c : TreeConstructionCase),
      c ∈ scanCases fuel ls →
      c.expected.head? ≠ some '\n' ∧ c.expected.getLast? ≠ some '\n' := by
  intro fuel
  induction fuel with
  | zero =>
    intro ls c hc
    simp [scanCases] at hc
  | succ fuel ih =>
    intro ls c hc
    match ls with
    | [] => simp [scanCases] at hc
    | line :: rest =>
      rw [scanCases] at hc
      by_cases hl : line ≠ "#data".data
      · rw [if_pos hl] at hc
        exact ih rest c hc
      · rw [if_neg hl] at hc
        rcases hbody : scanCaseBody rest with ⟨oc, r⟩
        rw [hbody] at hc
        match oc, hbody with
        | some c0, hbody =>
          rcases List.mem_cons.mp hc with rfl | hmem
          · exact scanCaseBody_expected_no_nl rest c r hbody
          · exact ih r c hmem
        | none, hbody => exact ih r c hc

/-- C3 counterexample: the decoder keeps trailing whitespace on retained
expected lines (`.join`/`trim_matches('\n')` strips only outer newlines,
not per-line trailing whitespace): the retained line `"| a "` keeps its
trailing space in the emitted `expected`. -/
theorem expected_keeps_trailing_space :
    (parse_tree_construction_dat "#data\nx\n#errors\n#document\n| a \n".data).map
        (fun c => c.expected) = ["| a ".data] ∧
    "| a ".data.getLast? = some ' ' ∧ isRustWs ' ' = true := by
  refine ⟨by decide, by decide, by decide⟩

/-- C3 amended: each emitted case's `expected` equals the expected-section
lines joined with `'\n'` and stripped of *leading and trailing newline
characters only* — so it never starts or ends with a newline, while
per-line trailing whitespace is preserved (that stripping happens later,
in `normalize_tree_text`, at comparison time). -/
theorem expected_strips_outer_newlines_only (content : List Char)
    (c : TreeConstructionCase) (h : c ∈ parse_tree_construction_dat content) :
    c.expected.head? ≠ some '\n' ∧ c.expected.getLast? ≠ some '\n' :=
  scanCases_expected_no_nl _ _ c h

/-- Witness for the amended C3 theorem at a concrete fixture. -/
theorem expected_strips_outer_newlines_only_witness :
    ("| x".data.head? ≠ some '\n') ∧ ("| x".data.getLast? ≠ some '\n') :=
  expected_strips_outer_newlines_only "#data\nx\n#errors\n#document\n| x".data
    { data := "x".data, error_count := 0, fragment_context := none,
      script_directive := .both, expected := "| x".data } (by decide)

/-! ## C7: attribute emission order -/

/-- C7 (confirmed): attributes are emitted one per line, indented two
further columns, as `name="value"`, in the lexicographic order of the
UTF-16 code-unit key of the displayed qualified name; the order differs
from byte (UTF-8) order on supplementary-plane names; and the concrete
template document with attributes `b="2"`, `a="1"` and no materialized
contents serializes to exactly the three expected lines. -/
theorem attrs_emitted_sorted_by_utf16 :
    (∀ attrs : List Attr,
      List.Sorted (fun a b : List Nat × List Char × List Char => a.1 ≤ b.1)
        (sort_attrs_for_test_output attrs)) ∧
    (∀ (fuel : Nat) (arena : Arena) (i : NodeId) (indent : Nat)
        (name : QualName) (attrs : List Attr) (tc : Option Nat),
      (arena.getD i default).data = .element name attrs tc →
      ∃ rest, node_to_test_lines (fuel + 1) arena i indent =
        ("| ".data ++ spaces indent ++ "<".data ++ qualified_name name ++ ">".data) ::
          ((sort_attrs_for_test_output attrs).map (fun t => attrLine indent t.2.1 t.2.2)) ++
          rest) ∧
    (utf16_sort_key [Char.ofNat 0x10000] < utf16_sort_key [Char.ofNat 0xFFFF] ∧
      encodeUtf8 0xFFFF < encodeUtf8 0x10000) ∧
    (let d0 := newEmptyArena .document
     let p1 := createNode d0.1 (.element ⟨.html, "template".data⟩ [] none)
     let a2 := append_child p1.1 d0.2 p1.2
     let a3 := set_attr a2 p1.2 ⟨⟨.html, "b".data⟩, "2".data⟩
     let a4 := set_attr a3 p1.2 ⟨⟨.html, "a".data⟩, "1".data⟩
     to_test_format a4 d0.2) = "| <template>\n|   a=\"1\"\n|   b=\"2\"".data := by
  refine ⟨?_, ?_, by decide, by decide⟩
  · intro attrs
    exact @List.sorted_insertionSort (List Nat × List Char × List Char)
      (fun a b => a.1 ≤ b.1) _
      ⟨fun a b => le_total a.1 b.1⟩ ⟨fun _ _ _ hab hbc => le_trans hab hbc⟩ _
  · intro fuel arena i indent name attrs tc h
    refine ⟨?_, ?_⟩
    · exact
        (if is_template_html_ns (arena.getD i default) then
          match tc with
          | some contents =>
            ["| ".data ++ spaces (indent + 2) ++ "content".data] ++
              ((arena.getD contents default).children.map
                (fun c => node_to_test_lines fuel arena c (indent + 4))).flatten
          | none =>
            ((arena.getD i default).children.map
              (fun c => node_to_test_lines fuel arena c (indent + 2))).flatten
        else
          ((arena.getD i default).children.map
            (fun c => node_to_test_lines fuel arena c (indent + 2))).flatten)
    · simp only [node_to_test_lines, h]
      cases tc <;> rfl

/-- Witness for the hypothesis-bearing shape part of the C7 theorem at a
concrete one-element arena. -/
theorem attrs_emitted_sorted_by_utf16_witness :
    ∃ rest, node_to_test_lines 1
        [{ data := .element ⟨.html, "p".data⟩ [⟨⟨.html, "a".data⟩, "1".data⟩] none,
           parent := none, children := [] }] 0 0 =
      ("| ".data ++ spaces 0 ++ "<".data ++ qualified_name ⟨.html, "p".data⟩ ++ ">".data) ::
        ((sort_attrs_for_test_output [⟨⟨.html, "a".data⟩, "1".data⟩]).map
          (fun t => attrLine 0 t.2.1 t.2.2)) ++ rest :=
  attrs_emitted_sorted_by_utf16.2.1 0
    [{ data := .element ⟨.html, "p".data⟩ [⟨⟨.html, "a".data⟩, "1".data⟩] none,
       parent := none, children := [] }] 0 0 ⟨.html, "p".data⟩
    [⟨⟨.html, "a".data⟩, "1".data⟩] none (by decide)

/-! ## C8: string escapes and surrogate pairs -/

/-- After a `\\uXXXX` escape decoding to a high surrogate, anything other
than a `\\u` escape with a valid low surrogate makes the string loop fail
with an error (never best-effort recovery). -/
theorem stringStep_high_surrogate_error (acc : List Nat)
    (b1 b2 b3 b4 v1 v2 v3 v4 : Nat) (rest : List Nat)
    (h1 : hexVal b1 = some v1) (h2 : hexVal b2 = some v2)
    (h3 : hexVal b3 = some v3) (h4 : hexVal b4 = some v4)
    (hlo : 0xD800 ≤ ((v1 * 16 + v2) * 16 + v3) * 16 + v4)
    (hhi : ((v1 * 16 + v2) * 16 + v3) * 16 + v4 ≤ 0xDBFF)
    (hnot : isLowSurrEscape rest = false) :
    ∃ e, stringStep acc (0x5C :: 0x75 :: b1 :: b2 :: b3 :: b4 :: rest) = .inl (.error e) := by
  unfold stringStep
  norm_num
  rw [h1, h2, h3, h4]
  dsimp only
  rw [if_pos ⟨hlo, hhi⟩]
  match rest, hnot with
  | [], _ => exact ⟨_, rfl⟩
  | [s1], _ => exact ⟨_, rfl⟩
  | [s1, s2], _ => exact ⟨_, rfl⟩
  | [s1, s2, k1], _ => exact ⟨_, rfl⟩
  | [s1, s2, k1, k2], _ => exact ⟨_, rfl⟩
  | [s1, s2, k1, k2, k3], _ => exact ⟨_, rfl⟩
  | s1 :: s2 :: k1 :: k2 :: k3 :: k4 :: r12, hnot =>
    dsimp only
    by_cases hs : s1 = 0x5C ∧ s2 = 0x75
    · rw [if_pos hs]
      cases hk1 : hexVal k1 with
      | none => exact ⟨_, rfl⟩
      | some x1 =>
        cases hk2 : hexVal k2 with
        | none => exact ⟨_, rfl⟩
        | some x2 =>
          cases hk3 : hexVal k3 with
          | none => exact ⟨_, rfl⟩
          | some x3 =>
            cases hk4 : hexVal k4 with
            | none => exact ⟨_, rfl⟩
            | some x4 =>
              have hrange :
                  ¬ (0xDC00 ≤ ((x1 * 16 + x2) * 16 + x3) * 16 + x4 ∧
                    ((x1 * 16 + x2) * 16 + x3) * 16 + x4 ≤ 0xDFFF) := by
                simp only [isLowSurrEscape, hk1, hk2, hk3, hk4] at hnot
                simpa [hs.1, hs.2] using hnot
              exact ⟨_, by dsimp only; rw [if_neg hrange]⟩
    · rw [if_neg hs]
      exact ⟨_, rfl⟩

/-- The same fact lifted to the string loop: the failing step is final for
any remaining fuel. -/
theorem parseStringLoop_high_surrogate_error (fuel : Nat) (acc : List Nat)
    (b1 b2 b3 b4 v1 v2 v3 v4 : Nat) (rest : List Nat)
    (h1 : hexVal b1 = some v1) (h2 : hexVal b2 = some v2)
    (h3 : hexVal b3 = some v3) (h4 : hexVal b4 = some v4)
    (hlo : 0xD800 ≤ ((v1 * 16 + v2) * 16 + v3) * 16 + v4)
    (hhi : ((v1 * 16 + v2) * 16 + v3) * 16 + v4 ≤ 0xDBFF)
    (hnot : isLowSurrEscape rest = false) :
    ∃ e, parseStringLoop (fuel + 1) acc (0x5C :: 0x75 :: b1 :: b2 :: b3 :: b4 :: rest) =
      .error e := by
  obtain ⟨e, he⟩ := stringStep_high_surrogate_error acc b1 b2 b3 b4 v1 v2 v3 v4 rest
    h1 h2 h3 h4 hlo hhi hnot
  exact ⟨e, by simp [parseStringLoop, he]⟩

/-- C8 (confirmed): the JSON-dialect string decoder supports the eight
two-character escapes, combines a valid UTF-16 surrogate pair into the
single corresponding code point (the example literal decodes to the code
points `A` and U+1F600), and errors out on a high surrogate not followed
by a `\u` escape with a valid low surrogate. -/
theorem string_escapes_and_surrogates :
    (parse_json (asciiBytes "\"\\u0041\\uD83D\\uDE00\"") =
      .ok (.string (encodeUtf8 0x41 ++ encodeUtf8 0x1F600))) ∧
    (0x10000 + (0xD83D - 0xD800) * 0x400 + (0xDE00 - 0xDC00) = 0x1F600) ∧
    (∀ p ∈ escPairs, parse_json [0x22, 0x5C, p.1, 0x22] = .ok (.string [p.2])) ∧
    (∀ (fuel : Nat) (acc : List Nat) (b1 b2 b3 b4 v1 v2 v3 v4 : Nat) (rest : List Nat),
      hexVal b1 = some v1 → hexVal b2 = some v2 →
      hexVal b3 = some v3 → hexVal b4 = some v4 →
      0xD800 ≤ ((v1 * 16 + v2) * 16 + v3) * 16 + v4 →
      ((v1 * 16 + v2) * 16 + v3) * 16 + v4 ≤ 0xDBFF →
      isLowSurrEscape rest = false →
      ∃ e, parseStringLoop (fuel + 1) acc (0x5C :: 0x75 :: b1 :: b2 :: b3 :: b4 :: rest) =
        .error e) := by
  refine ⟨rfl, by norm_num, ?_, parseStringLoop_high_surrogate_error⟩
  intro p hp
  fin_cases hp <;> rfl

/-- Witness for the hypothesis-bearing parts of the C8 theorem: the `\n`
escape decodes to a newline byte, and a lone high surrogate at the end of
the input is a parse error. -/
theorem string_escapes_and_surrogates_witness :
    (parse_json [0x22, 0x5C, 0x6E, 0x22] = .ok (.string [0x0A])) ∧
    (∃ e, parseStringLoop 1 [] [0x5C, 0x75, 0x44, 0x38, 0x33, 0x44] = .error e) :=
  ⟨string_escapes_and_surrogates.2.2.1 (0x6E, 0x0A) (by decide),
   string_escapes_and_surrogates.2.2.2 0 [] 0x44 0x38 0x33 0x44 13 8 3 13 []
     (by decide) (by decide) (by decide) (by decide) (by decide) (by decide) (by decide)⟩

end Oxihtml
